import Mathlib

/-!
Shallow embedding of the student-management dashboard (TypeScript sources under
`src/`) for checking its natural-language specification.

Conventions of the embedding:
* `Student` mirrors the `Student` interface of `types/student.ts`.  The TS field
  `profileImage?: string` is optional; every record this program writes carries a
  string there, so it is embedded as a plain `String`.  `status` is the string
  union `"active" | "inactive" | "graduated"`, embedded as `String` because the
  code compares it with arbitrary filter strings.
* Browser storage (`src/lib/student-storage.ts`) is embedded as an explicit
  state `StorageState`: a flag for `typeof window === "undefined"`, flags for a
  throwing `getItem` / `setItem` / `removeItem`, and a `Cell` describing the
  stored value as the platform JSON layer sees it (absent, an unparseable
  string, a parseable non-array, or an array of student records).  The platform
  guarantee `JSON.parse (JSON.stringify v) = v` on JSON-representable values is
  built into the `Cell.arr` constructor; `JSON.stringify` on these records never
  throws.  TypeScript exceptions are represented by the flags, so every embedded
  operation is a total function: "never raises" is totality of the embedding.
* JavaScript string operations are embedded over `List Char`:
  `String.prototype.trim` / `toLowerCase` / `includes`, the regular expressions
  of `src/components/student-form.tsx`, and `.length` (UTF-16 units coincide
  with characters on the inputs at issue).  The `\s` class is embedded by its
  ASCII members.
* A JS object with string keys (`Record<string, number>`) is embedded as an
  association list in insertion order; `Object.entries` enumerates canonical
  array-index keys first in ascending numeric order, then the remaining keys in
  insertion order, as the language specification prescribes.
  `Array.prototype.sort` with the comparator `([, a], [, b]) => b - a` is a
  stable sort descending by count; a stable sort for a total preorder is
  extensionally unique, and it is embedded by a stable insertion sort.
-/

/-- Interface `Student` of `types/student.ts`. -/
structure Student where
  id : String
  name : String
  email : String
  course : String
  profileImage : String
  enrollmentDate : String
  status : String
  deriving Repr, DecidableEq

/-- Method `StudentStorage.getDefaultStudents` of `src/lib/student-storage.ts`:
the fixed three-record sample set. -/
def getDefaultStudents : List Student :=
  [ { id := "1"
      name := "Alice Johnson"
      email := "alice.johnson@email.com"
      course := "Computer Science"
      profileImage := "/professional-woman-portrait.png"
      enrollmentDate := "2024-01-15"
      status := "active" },
    { id := "2"
      name := "Bob Smith"
      email := "bob.smith@email.com"
      course := "Data Science"
      profileImage := "/professional-man-portrait.png"
      enrollmentDate := "2024-02-01"
      status := "active" },
    { id := "3"
      name := "Carol Davis"
      email := "carol.davis@email.com"
      course := "Web Development"
      profileImage := "/professional-woman-portrait.png"
      enrollmentDate := "2023-09-10"
      status := "graduated" } ]

/-- The value stored under `STORAGE_KEY`, as seen through `JSON.parse`:
absent (`getItem` returned `null`), an unparseable string (`JSON.parse`
throws), a parseable value that is not an array (`Array.isArray` false), or
an array of student records. -/
inductive Cell where
  | empty : Cell
  | corrupt : Cell
  | nonArray : Cell
  | arr : List Student → Cell
  deriving Repr, DecidableEq

/-- The storage medium: window presence and the throwing behaviour of
`getItem` / `setItem` / `removeItem`, plus the stored cell. -/
structure StorageState where
  hasWindow : Bool
  readThrows : Bool
  writeThrows : Bool
  removeThrows : Bool
  cell : Cell
  deriving Repr, DecidableEq

/-- Method `StudentStorage.getStudents` of `src/lib/student-storage.ts`.
Totality of this function embeds "never raises": the `try`/`catch` of the
source catches a throwing `getItem` (`readThrows`) and a throwing
`JSON.parse` (`Cell.corrupt`) and returns the sample set. -/
def getStudents (σ : StorageState) : List Student :=
  if σ.hasWindow = false then []
  else if σ.readThrows then getDefaultStudents
  else
    match σ.cell with
    | Cell.empty => getDefaultStudents
    | Cell.corrupt => getDefaultStudents
    | Cell.nonArray => getDefaultStudents
    | Cell.arr l => l

/-- Method `StudentStorage.saveStudents` of `src/lib/student-storage.ts`: returns the
boolean success flag and the storage state after the call. -/
def saveStudents (σ : StorageState) (students : List Student) : Bool × StorageState :=
  if σ.hasWindow = false then (false, σ)
  else if σ.writeThrows then (false, σ)
  else (true, { σ with cell := Cell.arr students })

/-- Method `StudentStorage.clearStudents` of `src/lib/student-storage.ts`. -/
def clearStudents (σ : StorageState) : Bool × StorageState :=
  if σ.hasWindow = false then (false, σ)
  else if σ.removeThrows then (false, σ)
  else (true, { σ with cell := Cell.empty })

/-- The ASCII members of the JS regular-expression class `\s` (and of the
whitespace set trimmed by `String.prototype.trim`). -/
def isWsChar (c : Char) : Bool :=
  c = ' ' || c = '\t' || c = '\n' || c = '\r' || c = '\x0b' || c = '\x0c'

/-- JS `String.prototype.trim`: drop leading and trailing whitespace. -/
def jsTrim (s : String) : String :=
  ⟨((s.data.dropWhile isWsChar).reverse.dropWhile isWsChar).reverse⟩

/-- JS `String.prototype.toLowerCase` (ASCII range). -/
def toLowerCase (s : String) : String :=
  ⟨s.data.map Char.toLower⟩

/-- JS `hay.includes(needle)`: substring containment. -/
def jsIncludes (hay needle : String) : Bool :=
  (List.range (hay.data.length + 1)).any fun i => needle.data.isPrefixOf (hay.data.drop i)

/-- A character admitted by the name pattern `/^[a-zA-Z\s\-']+$/` of
`validateName` in `src/components/student-form.tsx`. -/
def isNameChar (c : Char) : Bool :=
  c.isAlpha || isWsChar c || c = '-' || c = '\''

/-- The test of `/^[a-zA-Z\s\-']+$/`: nonempty, all characters in the class. -/
def nameRegexTest (s : String) : Bool :=
  !s.data.isEmpty && s.data.all isNameChar

/-- Function `validateName` of `src/components/student-form.tsx`. -/
def validateName (name : String) : Option String :=
  if jsTrim name = "" then some "Name is required"
  else if (jsTrim name).data.length < 2 then some "Name must be at least 2 characters long"
  else if (jsTrim name).data.length > 50 then some "Name must be less than 50 characters"
  else if !nameRegexTest (jsTrim name) then
    some "Name can only contain letters, spaces, hyphens, and apostrophes"
  else none

/-- The inner-dot condition of the domain part of `/^[^\s@]+@[^\s@]+\.[^\s@]+$/`:
some `'.'` with at least one character before it and one after it. -/
def domainHasInnerDot (dom : List Char) : Bool :=
  (List.range dom.length).any fun j =>
    dom.getD j ' ' = '.' && decide (0 < j) && decide (j + 1 < dom.length)

/-- The test of the email regular expression `/^[^\s@]+@[^\s@]+\.[^\s@]+$/` of
`validateEmailFormat`: the string splits at its unique `'@'` into a nonempty
whitespace-free local part and a whitespace-free `'@'`-free domain containing
an inner dot. -/
def emailRegexTest (s : String) : Bool :=
  match (s.data.dropWhile fun c => c ≠ '@') with
  | '@' :: dom =>
      !(s.data.takeWhile fun c => c ≠ '@').isEmpty &&
      (s.data.takeWhile fun c => c ≠ '@').all (fun c => !isWsChar c) &&
      dom.all (fun c => !isWsChar c && c ≠ '@') &&
      domainHasInnerDot dom
  | _ => false

/-- Function `validateEmailFormat` of `src/components/student-form.tsx`.  Note the
regular expression is tested against the raw `email`, not `email.trim()`. -/
def validateEmailFormat (email : String) : Option String :=
  if jsTrim email = "" then some "Email is required"
  else if !emailRegexTest email then some "Please enter a valid email address"
  else none

/-- Function `validateCourse` of `src/components/student-form.tsx`. -/
def validateCourse (course : String) : Option String :=
  if course = "" then some "Please select a course" else none

/-- The observable outcome of one run of `validateEmailAsync`: whether
`mockApiService.validateEmail` was invoked, and the final value stored by
`setEmailValidationResult` (`none` embeds `null`). -/
structure EmailCheckOutcome where
  remoteCalled : Bool
  emailValidationResult : Option Bool
  deriving Repr, DecidableEq

/-- Function `validateEmailAsync` of `src/components/student-form.tsx`.  `initialData`
is the record being edited (if any); `remoteResponse` is the behaviour of the
awaited `mockApiService.validateEmail` call (`none` embeds a throw, caught by
the `catch` which stores `null`).  The guard `initialData?.email && ...`
requires a truthy (nonempty) stored email. -/
def validateEmailAsync (initialData : Option Student) (remoteResponse : Option Bool)
    (email : String) : EmailCheckOutcome :=
  if (validateEmailFormat email).isSome then ⟨false, none⟩
  else
    match initialData with
    | some init =>
        if init.email ≠ "" ∧ toLowerCase (jsTrim email) = toLowerCase (jsTrim init.email) then
          ⟨false, some true⟩
        else ⟨true, remoteResponse⟩
    | none => ⟨true, remoteResponse⟩

/-- The predicate of `filteredStudents` in `src/components/student-list.tsx`:
conjunction of the search, status and course filters. -/
def matchesFilters (searchTerm statusFilter courseFilter : String) (s : Student) : Bool :=
  (searchTerm = "" || jsIncludes (toLowerCase s.name) (toLowerCase searchTerm)
      || jsIncludes (toLowerCase s.email) (toLowerCase searchTerm))
  && (statusFilter = "all" || s.status = statusFilter)
  && (courseFilter = "all" || s.course = courseFilter)

/-- Memo `filteredStudents` of `src/components/student-list.tsx`. -/
def filteredStudents (students : List Student)
    (searchTerm statusFilter courseFilter : String) : List Student :=
  students.filter (matchesFilters searchTerm statusFilter courseFilter)

/-- The observable effect of `handleDeleteStudent` in `src/app/page.tsx`:
the array passed to `setStudents`, the array passed to
`studentStorage.saveStudents`, and the outcome of that save. -/
structure DeleteResult where
  newStudents : List Student
  savedArg : List Student
  saveOk : Bool
  storage : StorageState
  deriving Repr, DecidableEq

/-- Callback `handleDeleteStudent` of `src/app/page.tsx`. -/
def handleDeleteStudent (students : List Student) (studentId : String)
    (σ : StorageState) : DeleteResult :=
  let updatedStudents := students.filter fun s => s.id ≠ studentId
  let r := saveStudents σ updatedStudents
  ⟨updatedStudents, updatedStudents, r.1, r.2⟩

/-- One step of the `reduce` building `courseDistribution` in `studentStats`
(`src/app/page.tsx`): `acc[course] = (acc[course] || 0) + 1` on a JS object in
key-insertion order — bump an existing key in place, append a new key. -/
def bumpCourse (acc : List (String × Nat)) (c : String) : List (String × Nat) :=
  match acc with
  | [] => [(c, 1)]
  | (k, n) :: rest => if k = c then (k, n + 1) :: rest else (k, n) :: bumpCourse rest c

/-- The `courseDistribution` object of `studentStats` in `src/app/page.tsx`,
as an insertion-ordered association list. -/
def courseDistribution (students : List Student) : List (String × Nat) :=
  students.foldl (fun acc s => bumpCourse acc s.course) []

/-- The numeric value of a digit string. -/
def digitsToNat (cs : List Char) : Nat :=
  cs.foldl (fun n c => n * 10 + (c.toNat - 48)) 0

/-- A canonical array-index key of a JS object: a digit string with no leading
zero (except `"0"`) whose value is below `2^32 - 1`. -/
def canonicalIndex (s : String) : Option Nat :=
  if !s.data.isEmpty && s.data.all Char.isDigit
      && (s.data.head? ≠ some '0' || s = "0")
      && decide (digitsToNat s.data < 4294967295) then
    some (digitsToNat s.data)
  else none

/-- Stable insertion, ascending by canonical index value, of one entry into an
already ordered run of array-index entries. -/
def insertByIndexAsc (x : String × Nat) : List (String × Nat) → List (String × Nat)
  | [] => [x]
  | y :: ys =>
      if (canonicalIndex x.1).getD 0 < (canonicalIndex y.1).getD 0 then x :: y :: ys
      else y :: insertByIndexAsc x ys

/-- Enumeration `Object.entries` on a string-keyed object: canonical array-index keys first
in ascending numeric order, then the remaining keys in insertion order. -/
def jsEntries (assoc : List (String × Nat)) : List (String × Nat) :=
  (assoc.filter fun e => (canonicalIndex e.1).isSome).foldr insertByIndexAsc []
    ++ assoc.filter fun e => (canonicalIndex e.1).isNone

/-- Stable insertion, descending by count, of one entry into a sorted list:
the inserted entry precedes entries of equal count, embedding the stability of
`Array.prototype.sort` for the comparator `([, a], [, b]) => b - a`. -/
def insertByCountDesc (x : String × Nat) : List (String × Nat) → List (String × Nat)
  | [] => [x]
  | y :: ys => if x.2 < y.2 then y :: insertByCountDesc x ys else x :: y :: ys

/-- The stable sort `.sort(([, a], [, b]) => b - a)` of `studentStats`,
descending by count. -/
def sortByCountDesc (l : List (String × Nat)) : List (String × Nat) :=
  l.foldr insertByCountDesc []

/-- Expression `Object.entries(courseDistribution).sort(([, a], [, b]) => b - a)[0]?.[0]
|| "None"` of `studentStats`: the key of the first sorted entry, with JS
falsiness sending both `undefined` (no entries) and the empty-string key to
`"None"`. -/
def mostPopularCourse (students : List Student) : String :=
  match sortByCountDesc (jsEntries (courseDistribution students)) with
  | [] => "None"
  | e :: _ => if e.1 = "" then "None" else e.1

/-- The record returned by the `studentStats` memo of `src/app/page.tsx`. -/
structure StudentStats where
  total : Nat
  courseDistribution : List (String × Nat)
  mostPopularCourse : String
  deriving Repr, DecidableEq

/-- Memo `studentStats` of `src/app/page.tsx`. -/
def studentStats (students : List Student) : StudentStats :=
  { total := students.length
    courseDistribution := courseDistribution students
    mostPopularCourse := mostPopularCourse students }

/-- The count held by a JS object read `acc[c] || 0` on the embedded
association list. -/
def countOf (assoc : List (String × Nat)) (c : String) : Nat :=
  match assoc.find? (fun e => e.1 = c) with
  | some e => e.2
  | none => 0

/-- The maximal count occurring in a list of entries (`0` when empty). -/
def maxCnt (l : List (String × Nat)) : Nat :=
  l.foldr (fun e m => max e.2 m) 0

/-- A concrete record with email `"x@y.com"`, as in the unchanged-email
re-submission example of the spec. -/
def recEditX : Student :=
  { id := "9", name := "Xavier", email := "x@y.com", course := "Computer Science"
    profileImage := "", enrollmentDate := "2024-03-01", status := "active" }

/-- The Alice record of the filtering example of the spec. -/
def aliceRecord : Student :=
  { id := "a1", name := "Alice", email := "alice@example.com", course := "CS"
    profileImage := "", enrollmentDate := "2024-01-01", status := "active" }

/-- The Bob record of the filtering example of the spec. -/
def bobRecord : Student :=
  { id := "b1", name := "Bob", email := "bob@example.com", course := "DS"
    profileImage := "", enrollmentDate := "2024-01-02", status := "graduated" }

/-- A record set whose course assignments are `["CS", "CS", "DS"]`, as in the
statistics example of the spec. -/
def threeCourseSample : List Student :=
  [ { id := "s1", name := "P", email := "p@e.com", course := "CS"
      profileImage := "", enrollmentDate := "2024-01-01", status := "active" },
    { id := "s2", name := "Q", email := "q@e.com", course := "CS"
      profileImage := "", enrollmentDate := "2024-01-02", status := "active" },
    { id := "s3", name := "R", email := "r@e.com", course := "DS"
      profileImage := "", enrollmentDate := "2024-01-03", status := "active" } ]

/-- A record whose course is the empty string. -/
def emptyCourseRecord : Student :=
  { id := "z1", name := "Zed", email := "z@e.com", course := ""
    profileImage := "", enrollmentDate := "2024-01-01", status := "active" }

/-- A storage state with a functioning medium and no stored value. -/
def freshStorage : StorageState :=
  { hasWindow := true, readThrows := false, writeThrows := false
    removeThrows := false, cell := Cell.empty }

/-! ## Claim theorems -/

/-- C1.  For every storage state with a window present, `getStudents` returns
the fixed three-record sample set (Alice Johnson, Bob Smith, Carol Davis) when
no prior write exists, when the stored value fails to parse as JSON, when the
stored value is not a sequence, or when the storage read throws; the embedding
is a total function, so no run raises. -/
theorem getStudents_degrades_to_sample_set :
    ∀ σ : StorageState, σ.hasWindow = true →
      (σ.readThrows = true ∨ σ.cell = Cell.empty ∨ σ.cell = Cell.corrupt ∨
        σ.cell = Cell.nonArray) →
      getStudents σ = getDefaultStudents ∧
      getDefaultStudents.map Student.name = ["Alice Johnson", "Bob Smith", "Carol Davis"] := by
  intro σ hw h
  refine ⟨?_, rfl⟩
  rcases h with h | h | h | h <;> simp [getStudents, hw, h]

/-- Witness for C1: evaluated on the four concrete failing storage states. -/
theorem getStudents_degrades_to_sample_set_witness :
    getStudents { freshStorage with readThrows := true } = getDefaultStudents ∧
    getStudents freshStorage = getDefaultStudents ∧
    getStudents { freshStorage with cell := Cell.corrupt } = getDefaultStudents ∧
    getStudents { freshStorage with cell := Cell.nonArray } = getDefaultStudents :=
  ⟨(getStudents_degrades_to_sample_set _ rfl (Or.inl rfl)).1,
   (getStudents_degrades_to_sample_set _ rfl (Or.inr (Or.inl rfl))).1,
   (getStudents_degrades_to_sample_set _ rfl (Or.inr (Or.inr (Or.inl rfl)))).1,
   (getStudents_degrades_to_sample_set _ rfl (Or.inr (Or.inr (Or.inr rfl)))).1⟩

/-- C2.  For every record set `R` and every functioning storage medium (window
present, read and write do not throw), `saveStudents R` succeeds and an
immediately following `getStudents` yields `R` unchanged. -/
theorem saveStudents_getStudents_roundtrip :
    ∀ (σ : StorageState) (R : List Student),
      σ.hasWindow = true → σ.readThrows = false → σ.writeThrows = false →
      (saveStudents σ R).1 = true ∧ getStudents (saveStudents σ R).2 = R := by
  intro σ R hw hr hwr
  simp [saveStudents, getStudents, hw, hr, hwr]

/-- Witness for C2: a concrete two-record set round-trips through a fresh
functioning storage. -/
theorem saveStudents_getStudents_roundtrip_witness :
    (saveStudents freshStorage [aliceRecord, bobRecord]).1 = true ∧
    getStudents (saveStudents freshStorage [aliceRecord, bobRecord]).2 =
      [aliceRecord, bobRecord] :=
  saveStudents_getStudents_roundtrip freshStorage [aliceRecord, bobRecord] rfl rfl rfl

/-- C9.  When no browser window exists, `getStudents` returns the empty list
(not the sample set) and `saveStudents` / `clearStudents` return `false`
leaving the storage state untouched. -/
theorem no_window_behaviour :
    ∀ (σ : StorageState) (R : List Student), σ.hasWindow = false →
      getStudents σ = [] ∧ saveStudents σ R = (false, σ) ∧ clearStudents σ = (false, σ) := by
  intro σ R hw
  refine ⟨?_, ?_, ?_⟩ <;> simp [getStudents, saveStudents, clearStudents, hw]

/-- Witness for C9: evaluated on a concrete window-less storage state. -/
theorem no_window_behaviour_witness :
    getStudents { freshStorage with hasWindow := false } = [] ∧
    saveStudents { freshStorage with hasWindow := false } [aliceRecord] =
      (false, { freshStorage with hasWindow := false }) ∧
    clearStudents { freshStorage with hasWindow := false } =
      (false, { freshStorage with hasWindow := false }) :=
  no_window_behaviour { freshStorage with hasWindow := false } [aliceRecord] rfl

/-- C10.  On the empty record set, `studentStats` yields `total = 0`, an empty
`courseDistribution`, and the sentinel `mostPopularCourse = "None"`. -/
theorem studentStats_empty :
    studentStats [] = { total := 0, courseDistribution := [], mostPopularCourse := "None" } := by
  rfl

/-- C8.  The email format validator accepts `"a@b.co"`, rejects
`"no-at-sign.com"` with the format message, and rejects the empty string with
the required message, not the format message. -/
theorem validateEmailFormat_examples :
    validateEmailFormat "a@b.co" = none ∧
    validateEmailFormat "no-at-sign.com" = some "Please enter a valid email address" ∧
    validateEmailFormat "" = some "Email is required" := by
  refine ⟨by decide, by decide, by decide⟩

/-- C7.  The name validator: required on empty-after-trimming input, too-short
under 2 trimmed characters, too-long over 50 trimmed characters, invalid
characters when a trimmed name of admissible length contains a character other
than letters, spaces, hyphens and apostrophes; `"Al"` and `"Jean-Luc O'Brien"`
pass, `"A"`, a 51-character name, `""`, `"   "` and `"John123"` fail with their
respective messages. -/
theorem validateName_spec :
    (∀ name : String, (jsTrim name).data.length > 50 →
      validateName name = some "Name must be less than 50 characters") ∧
    (∀ name : String, 2 ≤ (jsTrim name).data.length → (jsTrim name).data.length ≤ 50 →
      (∃ c ∈ (jsTrim name).data, isNameChar c = false) →
      validateName name = some "Name can only contain letters, spaces, hyphens, and apostrophes") ∧
    (∀ name : String, jsTrim name = "" → validateName name = some "Name is required") ∧
    (∀ name : String, jsTrim name ≠ "" → (jsTrim name).data.length < 2 →
      validateName name = some "Name must be at least 2 characters long") ∧
    validateName "Al" = none ∧
    validateName "Jean-Luc O'Brien" = none ∧
    validateName "A" = some "Name must be at least 2 characters long" ∧
    validateName (String.mk (List.replicate 51 'A')) = some "Name must be less than 50 characters" ∧
    validateName "" = some "Name is required" ∧
    validateName "   " = some "Name is required" ∧
    validateName "John123" = some "Name can only contain letters, spaces, hyphens, and apostrophes" := by
  refine ⟨?_, ?_, ?_, ?_, by decide, by decide, by decide, by decide, by decide, by decide, by decide⟩
  · intro name h
    have h0 : ¬ jsTrim name = "" := by
      intro he; rw [he] at h; simp at h
    have h1 : ¬ (jsTrim name).data.length < 2 := by omega
    simp only [validateName, if_neg h0, if_neg h1, if_pos h]
  · intro name h2 h50 hex
    have h0 : ¬ jsTrim name = "" := by
      intro he; rw [he] at h2; simp at h2
    have h1 : ¬ (jsTrim name).data.length < 2 := by omega
    have h3 : ¬ (jsTrim name).data.length > 50 := by omega
    have hreg : nameRegexTest (jsTrim name) = false := by
      obtain ⟨c, hc, hbad⟩ := hex
      cases hall : (jsTrim name).data.all isNameChar with
      | false => simp [nameRegexTest, hall]
      | true =>
        rw [List.all_eq_true] at hall
        rw [hall c hc] at hbad
        exact absurd hbad (by simp)
    simp only [validateName, if_neg h0, if_neg h1, if_neg h3, hreg]
    rfl
  · intro name he
    simp only [validateName, if_pos he]
  · intro name h0 h1
    simp only [validateName, if_neg h0, if_pos h1]

/-- Witness for C7: the general clauses applied at concrete inputs — a
51-character all-`'B'` name, `"Ann3"` (digit), `" "` (whitespace only) and
`" Z "` (one trimmed character). -/
theorem validateName_spec_witness :
    validateName (String.mk (List.replicate 51 'B')) = some "Name must be less than 50 characters" ∧
    validateName "Ann3" = some "Name can only contain letters, spaces, hyphens, and apostrophes" ∧
    validateName " " = some "Name is required" ∧
    validateName " Z " = some "Name must be at least 2 characters long" :=
  ⟨validateName_spec.1 _ (by decide),
   validateName_spec.2.1 "Ann3" (by decide) (by decide) ⟨'3', by decide, by decide⟩,
   validateName_spec.2.2.1 " " (by decide),
   validateName_spec.2.2.2.1 " Z " (by decide) (by decide)⟩

/-- C6.  The list filter returns exactly the records satisfying the
conjunction of the free-text search over name/email (case-insensitive, empty
term matches all), the status equality filter (`"all"` matches all) and the
course equality filter (`"all"` matches all); on the Alice/Bob example,
status `"active"` yields exactly Alice and search `"bob"` yields exactly
Bob. -/
theorem filteredStudents_spec :
    (∀ (students : List Student) (term st co : String) (s : Student),
      s ∈ filteredStudents students term st co ↔
        s ∈ students ∧
        (term = "" ∨ jsIncludes (toLowerCase s.name) (toLowerCase term) = true ∨
          jsIncludes (toLowerCase s.email) (toLowerCase term) = true) ∧
        (st = "all" ∨ s.status = st) ∧
        (co = "all" ∨ s.course = co)) ∧
    filteredStudents [aliceRecord, bobRecord] "" "active" "all" = [aliceRecord] ∧
    filteredStudents [aliceRecord, bobRecord] "bob" "all" "all" = [bobRecord] := by
  refine ⟨?_, by decide, by decide⟩
  intro students term st co s
  simp [filteredStudents, matchesFilters, List.mem_filter, and_assoc, or_assoc]

/-- C4.  Deleting by id passes to the save exactly the array it installs in
memory; that array holds exactly the prior records with a different id, in
their prior order (a sublist); with a functioning medium the saved snapshot is
that array; and for an absent id the array is unchanged while the save still
runs on it. -/
theorem handleDeleteStudent_spec :
    ∀ (students : List Student) (i : String) (σ : StorageState),
      (handleDeleteStudent students i σ).savedArg = (handleDeleteStudent students i σ).newStudents ∧
      (∀ s : Student,
        s ∈ (handleDeleteStudent students i σ).newStudents ↔ s ∈ students ∧ s.id ≠ i) ∧
      List.Sublist (handleDeleteStudent students i σ).newStudents students ∧
      (σ.hasWindow = true → σ.writeThrows = false →
        (handleDeleteStudent students i σ).saveOk = true ∧
        (handleDeleteStudent students i σ).storage.cell =
          Cell.arr (handleDeleteStudent students i σ).newStudents) ∧
      ((∀ s ∈ students, s.id ≠ i) → (handleDeleteStudent students i σ).newStudents = students) := by
  intro students i σ
  refine ⟨rfl, ?_, ?_, ?_, ?_⟩
  · intro s
    simp [handleDeleteStudent, List.mem_filter]
  · simp only [handleDeleteStudent]
    exact List.filter_sublist _
  · intro hw hwr
    simp [handleDeleteStudent, saveStudents, hw, hwr]
  · intro hall
    simp only [handleDeleteStudent]
    exact List.filter_eq_self.mpr fun a ha => by simp [hall a ha]

/-- Witness for C4: deleting `"a1"` from the Alice/Bob set persists exactly
the Bob record; deleting the absent id `"zz"` leaves the set unchanged. -/
theorem handleDeleteStudent_spec_witness :
    ((handleDeleteStudent [aliceRecord, bobRecord] "a1" freshStorage).saveOk = true ∧
      (handleDeleteStudent [aliceRecord, bobRecord] "a1" freshStorage).storage.cell =
        Cell.arr (handleDeleteStudent [aliceRecord, bobRecord] "a1" freshStorage).newStudents) ∧
    (handleDeleteStudent [aliceRecord, bobRecord] "zz" freshStorage).newStudents =
      [aliceRecord, bobRecord] :=
  ⟨(handleDeleteStudent_spec [aliceRecord, bobRecord] "a1" freshStorage).2.2.2.1 rfl rfl,
   (handleDeleteStudent_spec [aliceRecord, bobRecord] "zz" freshStorage).2.2.2.2 (by decide)⟩

/-- C3 (amended).  When editing an existing record, an input email that passes
the synchronous format check and equals the stored email after trimming and
lowercasing makes `validateEmailAsync` skip the remote `validateEmail` call
and set the availability result to `true`.  (The format check runs first and
rejects, e.g., surrounding whitespace; the claim as stated, without the
format-check proviso, fails — see the counterexample.) -/
theorem validateEmailAsync_unchanged_email_valid :
    ∀ (init : Student) (remote : Option Bool) (email : String),
      validateEmailFormat email = none →
      toLowerCase (jsTrim email) = toLowerCase (jsTrim init.email) →
      validateEmailAsync (some init) remote email =
        { remoteCalled := false, emailValidationResult := some true } := by
  intro init remote email hfmt heq
  have htrim : jsTrim email ≠ "" := by
    intro he
    rw [validateEmailFormat, if_pos he] at hfmt
    exact Option.noConfusion hfmt
  have hinit : init.email ≠ "" := by
    intro hie
    apply htrim
    rw [hie] at heq
    have hdata : (jsTrim email).data.map Char.toLower = [] := by
      have h2 := congrArg String.data heq
      simpa [toLowerCase, jsTrim] using h2
    have hnil : (jsTrim email).data = [] := by simpa using hdata
    exact String.ext hnil
  simp [validateEmailAsync, hfmt, hinit, heq]

/-- Witness for C3: re-submitting the stored email `"x@y.com"` in upper case
skips the remote call and records availability `true`. -/
theorem validateEmailAsync_unchanged_email_valid_witness :
    validateEmailAsync (some recEditX) (some false) "X@Y.COM" =
      { remoteCalled := false, emailValidationResult := some true } :=
  validateEmailAsync_unchanged_email_valid recEditX (some false) "X@Y.COM" (by decide) (by decide)

/-- Counterexample to C3 as stated: `" x@y.com "` equals the stored email
`"x@y.com"` of `recEditX` after trimming and lowercasing, and the remote check
is indeed not invoked, but the availability result is cleared to `null`
(`none`) instead of being set to valid (`true`), because the format regex is
tested against the untrimmed input and rejects the surrounding whitespace. -/
theorem validateEmailAsync_whitespace_counterexample :
    toLowerCase (jsTrim " x@y.com ") = toLowerCase (jsTrim recEditX.email) ∧
    (validateEmailAsync (some recEditX) (some true) " x@y.com ").remoteCalled = false ∧
    (validateEmailAsync (some recEditX) (some true) " x@y.com ").emailValidationResult ≠ some true := by
  refine ⟨by decide, by decide, by decide⟩

/-! ## Helper lemmas for the statistics computation -/

theorem bumpCourse_ne_nil (acc : List (String × Nat)) (c : String) : bumpCourse acc c ≠ [] := by
  cases acc with
  | nil => simp [bumpCourse]
  | cons h t =>
    cases h with
    | mk k n =>
      simp only [bumpCourse]
      split <;> simp

theorem foldlBump_ne_nil :
    ∀ (l : List Student) (acc : List (String × Nat)), acc ≠ [] →
      l.foldl (fun a s => bumpCourse a s.course) acc ≠ [] := by
  intro l
  induction l with
  | nil => intro acc h; simpa using h
  | cons s rest ih =>
    intro acc _
    simp only [List.foldl_cons]
    exact ih _ (bumpCourse_ne_nil _ _)

theorem courseDistribution_ne_nil (students : List Student) (h : students ≠ []) :
    courseDistribution students ≠ [] := by
  cases students with
  | nil => exact absurd rfl h
  | cons s rest =>
    simp only [courseDistribution, List.foldl_cons]
    exact foldlBump_ne_nil rest _ (bumpCourse_ne_nil [] s.course)

theorem key_mem_bumpCourse :
    ∀ (acc : List (String × Nat)) (c : String) (e : String × Nat),
      e ∈ bumpCourse acc c → e.1 = c ∨ e.1 ∈ acc.map Prod.fst := by
  intro acc c
  induction acc with
  | nil =>
    intro e he
    simp only [bumpCourse, List.mem_singleton] at he
    left; rw [he]
  | cons h t ih =>
    intro e he
    cases h with
    | mk k n =>
      simp only [bumpCourse] at he
      by_cases hk : k = c
      · rw [if_pos hk] at he
        rcases List.mem_cons.mp he with h1 | h1
        · left; rw [h1, hk]
        · right
          simp only [List.map_cons, List.mem_cons]
          exact Or.inr (List.mem_map_of_mem Prod.fst h1)
      · rw [if_neg hk] at he
        rcases List.mem_cons.mp he with h1 | h1
        · right; rw [h1]; simp
        · rcases ih e h1 with h2 | h2
          · exact Or.inl h2
          · right
            simp only [List.map_cons, List.mem_cons]
            exact Or.inr h2

theorem key_mem_foldlBump :
    ∀ (l : List Student) (acc : List (String × Nat)) (e : String × Nat),
      e ∈ l.foldl (fun a s => bumpCourse a s.course) acc →
      e.1 ∈ acc.map Prod.fst ∨ e.1 ∈ l.map Student.course := by
  intro l
  induction l with
  | nil =>
    intro acc e he
    exact Or.inl (List.mem_map_of_mem Prod.fst he)
  | cons s rest ih =>
    intro acc e he
    simp only [List.foldl_cons] at he
    rcases ih _ e he with h1 | h1
    · rw [List.mem_map] at h1
      obtain ⟨e', he', hfe⟩ := h1
      rcases key_mem_bumpCourse acc s.course e' he' with h2 | h2
      · right
        simp only [List.map_cons, List.mem_cons]
        exact Or.inl (by rw [← hfe, h2])
      · exact Or.inl (hfe ▸ h2)
    · right
      simp only [List.map_cons, List.mem_cons]
      exact Or.inr h1

theorem key_mem_courseDistribution (students : List Student) (e : String × Nat)
    (he : e ∈ courseDistribution students) : e.1 ∈ students.map Student.course := by
  rcases key_mem_foldlBump students [] e he with h | h
  · simp at h
  · exact h

theorem countOf_cons (k : String) (n : Nat) (t : List (String × Nat)) (cq : String) :
    countOf ((k, n) :: t) cq = if k = cq then n else countOf t cq := by
  by_cases h : k = cq
  · simp [countOf, h]
  · simp [countOf, h]

theorem countOf_bumpCourse :
    ∀ (acc : List (String × Nat)) (c cq : String),
      countOf (bumpCourse acc c) cq = countOf acc cq + (if c = cq then 1 else 0) := by
  intro acc c cq
  induction acc with
  | nil =>
    by_cases h : c = cq
    · simp [bumpCourse, countOf, h]
    · simp [bumpCourse, countOf, h]
  | cons hd t ih =>
    obtain ⟨k, n⟩ := hd
    by_cases hk : k = c
    · rw [show bumpCourse ((k, n) :: t) c = (k, n + 1) :: t from by simp [bumpCourse, hk]]
      rw [countOf_cons, countOf_cons]
      by_cases hq : k = cq
      · rw [if_pos hq, if_pos hq, if_pos (hk.symm.trans hq)]
      · rw [if_neg hq, if_neg hq, if_neg fun h => hq (hk.trans h)]
        omega
    · rw [show bumpCourse ((k, n) :: t) c = (k, n) :: bumpCourse t c from by
        simp [bumpCourse, hk]]
      rw [countOf_cons, countOf_cons]
      by_cases hq : k = cq
      · rw [if_pos hq, if_pos hq, if_neg fun h => hk (hq.trans h.symm)]
        omega
      · rw [if_neg hq, if_neg hq]
        exact ih

theorem countOf_foldlBump :
    ∀ (l : List Student) (acc : List (String × Nat)) (c : String),
      countOf (l.foldl (fun a s => bumpCourse a s.course) acc) c =
        countOf acc c + l.countP (fun s => s.course = c) := by
  intro l
  induction l with
  | nil => intro acc c; simp
  | cons s rest ih =>
    intro acc c
    simp only [List.foldl_cons]
    rw [ih, countOf_bumpCourse, List.countP_cons]
    by_cases h : s.course = c
    · simp [h]
      omega
    · simp [h]

theorem countOf_courseDistribution (students : List Student) (c : String) :
    countOf (courseDistribution students) c = students.countP fun s => s.course = c := by
  have h := countOf_foldlBump students [] c
  simpa [countOf] using h

theorem insertByCountDesc_perm (x : String × Nat) :
    ∀ l : List (String × Nat), List.Perm (insertByCountDesc x l) (x :: l) := by
  intro l
  induction l with
  | nil => simp [insertByCountDesc]
  | cons y ys ih =>
    simp only [insertByCountDesc]
    split
    · exact (ih.cons y).trans (List.Perm.swap x y ys)
    · exact List.Perm.refl _

theorem sortByCountDesc_perm : ∀ l : List (String × Nat), List.Perm (sortByCountDesc l) l := by
  intro l
  induction l with
  | nil => exact List.Perm.refl _
  | cons x xs ih =>
    simp only [sortByCountDesc, List.foldr_cons]
    exact (insertByCountDesc_perm x _).trans (ih.cons x)

theorem insertByIndexAsc_perm (x : String × Nat) :
    ∀ l : List (String × Nat), List.Perm (insertByIndexAsc x l) (x :: l) := by
  intro l
  induction l with
  | nil => simp [insertByIndexAsc]
  | cons y ys ih =>
    simp only [insertByIndexAsc]
    split
    · exact List.Perm.refl _
    · exact (ih.cons y).trans (List.Perm.swap x y ys)

theorem foldrIndexAsc_perm :
    ∀ l : List (String × Nat), List.Perm (l.foldr insertByIndexAsc []) l := by
  intro l
  induction l with
  | nil => exact List.Perm.refl _
  | cons x xs ih =>
    simp only [List.foldr_cons]
    exact (insertByIndexAsc_perm x _).trans (ih.cons x)

theorem jsEntries_perm (assoc : List (String × Nat)) : List.Perm (jsEntries assoc) assoc := by
  have hpred : (fun e : String × Nat => (canonicalIndex e.1).isNone)
      = fun e : String × Nat => !(canonicalIndex e.1).isSome := by
    funext e
    cases canonicalIndex e.1 <;> rfl
  simp only [jsEntries, hpred]
  exact ((foldrIndexAsc_perm _).append_right _).trans
    (List.filter_append_perm (fun e => (canonicalIndex e.1).isSome) assoc)

theorem le_maxCnt_of_mem :
    ∀ {l : List (String × Nat)} {e : String × Nat}, e ∈ l → e.2 ≤ maxCnt l := by
  intro l
  induction l with
  | nil => intro e h; simp at h
  | cons x xs ih =>
    intro e he
    rcases List.mem_cons.mp he with h | h
    · rw [h]
      exact Nat.le_max_left _ _
    · exact Nat.le_trans (ih h) (Nat.le_max_right _ _)

theorem sortByCountDesc_ne_nil {l : List (String × Nat)} (h : l ≠ []) :
    sortByCountDesc l ≠ [] := by
  intro he
  have hl := (sortByCountDesc_perm l).length_eq
  rw [he] at hl
  exact h (List.length_eq_zero.mp hl.symm)

theorem head_sortByCountDesc :
    ∀ l : List (String × Nat), l ≠ [] →
      (sortByCountDesc l).head? = l.find? fun e => e.2 = maxCnt l := by
  intro l
  induction l with
  | nil => intro h; exact absurd rfl h
  | cons x xs ih =>
    intro _
    by_cases hxs : xs = []
    · subst hxs
      simp [sortByCountDesc, insertByCountDesc, maxCnt, Nat.max_zero]
    · have ihx := ih hxs
      obtain ⟨f, t, hf⟩ : ∃ f t, sortByCountDesc xs = f :: t := by
        cases hsx : sortByCountDesc xs with
        | nil => exact absurd hsx (sortByCountDesc_ne_nil hxs)
        | cons f t => exact ⟨f, t, rfl⟩
      have hfind : xs.find? (fun e => e.2 = maxCnt xs) = some f := by
        rw [← ihx, hf]
        rfl
      have hf2 : f.2 = maxCnt xs := by
        simpa using List.find?_some hfind
      have hstep : sortByCountDesc (x :: xs) = insertByCountDesc x (f :: t) := by
        simp only [sortByCountDesc, List.foldr_cons]
        rw [show xs.foldr insertByCountDesc [] = sortByCountDesc xs from rfl, hf]
      by_cases hx : x.2 < f.2
      · have hxlt : x.2 < maxCnt xs := by rw [← hf2]; exact hx
        have hmax : maxCnt (x :: xs) = maxCnt xs := by
          show max x.2 (maxCnt xs) = maxCnt xs
          exact Nat.max_eq_right (Nat.le_of_lt hxlt)
        rw [hstep]
        rw [show insertByCountDesc x (f :: t) = f :: insertByCountDesc x t from by
          simp [insertByCountDesc, hx]]
        rw [List.head?_cons, hmax]
        rw [List.find?_cons_of_neg _ (by simp; omega)]
        exact hfind.symm
      · have hle : maxCnt xs ≤ x.2 := by
          rw [← hf2]; exact Nat.le_of_not_lt hx
        have hmax : maxCnt (x :: xs) = x.2 := by
          show max x.2 (maxCnt xs) = x.2
          exact Nat.max_eq_left hle
        rw [hstep]
        rw [show insertByCountDesc x (f :: t) = x :: f :: t from by
          simp [insertByCountDesc, hx]]
        rw [List.head?_cons, hmax]
        rw [List.find?_cons_of_pos _ (by simp)]

/-- C5 (amended).  On course assignments `["CS", "CS", "DS"]` the statistics
yield `courseDistribution = [("CS", 2), ("DS", 1)]` and
`mostPopularCourse = "CS"`; each distribution count is the number of records
with that course; and for every nonempty record set whose course names are all
nonempty, `mostPopularCourse` is the key of a distribution entry of maximal
count, namely the first entry in the object's iteration order attaining that
count (the stable sort breaks ties in favour of the earlier entry).  The
empty-string proviso is forced by the `|| "None"` fallback — see the
counterexample. -/
theorem studentStats_spec :
    ((studentStats threeCourseSample).courseDistribution = [("CS", 2), ("DS", 1)] ∧
      (studentStats threeCourseSample).mostPopularCourse = "CS") ∧
    (∀ (students : List Student) (c : String),
      countOf (courseDistribution students) c = students.countP fun s => s.course = c) ∧
    (∀ students : List Student, students ≠ [] → (∀ s ∈ students, s.course ≠ "") →
      ∃ e : String × Nat, e ∈ courseDistribution students ∧
        mostPopularCourse students = e.1 ∧
        (∀ e' ∈ courseDistribution students, e'.2 ≤ e.2) ∧
        (jsEntries (courseDistribution students)).find? (fun e' => e'.2 = e.2) = some e) := by
  refine ⟨⟨by decide, by decide⟩, countOf_courseDistribution, ?_⟩
  intro students hne hc
  have hDne : courseDistribution students ≠ [] := courseDistribution_ne_nil students hne
  have hperm : List.Perm (jsEntries (courseDistribution students)) (courseDistribution students) :=
    jsEntries_perm _
  have hEne : jsEntries (courseDistribution students) ≠ [] := by
    intro h
    rw [h] at hperm
    have hl := hperm.length_eq
    exact hDne (List.length_eq_zero.mp hl.symm)
  have hhead := head_sortByCountDesc _ hEne
  obtain ⟨h0, t0, hs⟩ :
      ∃ h0 t0, sortByCountDesc (jsEntries (courseDistribution students)) = h0 :: t0 := by
    cases hsx : sortByCountDesc (jsEntries (courseDistribution students)) with
    | nil => exact absurd hsx (sortByCountDesc_ne_nil hEne)
    | cons a b => exact ⟨a, b, rfl⟩
  rw [hs, List.head?_cons] at hhead
  have hfind : (jsEntries (courseDistribution students)).find?
      (fun e => e.2 = maxCnt (jsEntries (courseDistribution students))) = some h0 := hhead.symm
  have h02 : h0.2 = maxCnt (jsEntries (courseDistribution students)) := by
    simpa using List.find?_some hfind
  have h0E : h0 ∈ jsEntries (courseDistribution students) :=
    List.mem_of_find?_eq_some hfind
  have h0D : h0 ∈ courseDistribution students := hperm.mem_iff.mp h0E
  have hkey := key_mem_courseDistribution students h0 h0D
  have hkne : h0.1 ≠ "" := by
    rw [List.mem_map] at hkey
    obtain ⟨s, hsmem, hsc⟩ := hkey
    rw [← hsc]
    exact hc s hsmem
  refine ⟨h0, h0D, ?_, ?_, ?_⟩
  · simp only [mostPopularCourse]
    rw [hs]
    simp [hkne]
  · intro e' he'
    have he'E : e' ∈ jsEntries (courseDistribution students) := hperm.mem_iff.mpr he'
    have hle := le_maxCnt_of_mem he'E
    rw [← h02] at hle
    exact hle
  · rw [h02]
    exact hfind

/-- Witness for C5: the maximal-count characterization applied to the
concrete `["CS", "CS", "DS"]` record set. -/
theorem studentStats_spec_witness :
    ∃ e : String × Nat, e ∈ courseDistribution threeCourseSample ∧
      mostPopularCourse threeCourseSample = e.1 ∧
      (∀ e' ∈ courseDistribution threeCourseSample, e'.2 ≤ e.2) ∧
      (jsEntries (courseDistribution threeCourseSample)).find? (fun e' => e'.2 = e.2) = some e :=
  studentStats_spec.2.2 threeCourseSample (by decide) (by decide)

/-- Counterexample to C5 as stated: for a single record whose course is the
empty string, the sole (hence maximal-count) course is `""`, but
`mostPopularCourse` is the sentinel `"None"` — the falsy empty-string key
trips the `|| "None"` fallback, so the result is not a course of maximal
count. -/
theorem mostPopularCourse_empty_key_counterexample :
    courseDistribution [emptyCourseRecord] = [("", 1)] ∧
    mostPopularCourse [emptyCourseRecord] = "None" ∧
    mostPopularCourse [emptyCourseRecord] ≠ "" := by
  refine ⟨by decide, by decide, by decide⟩
